import Mathlib

/-!
# Verification of the AI-Academic-Explorer scrapers

Shallow embedding, in Lean 4, of the extraction pipeline of the
AI-Academic-Explorer repository (Camosun College course / program scrapers):

* `src/courses_scrapper.py`  — class `CamosunCourseScraper`
* `src/program_scrapper.py`  — class `CamosunProgramScraper`
* `src/old_program_scraper.py` — module-level functions
* `src/utils/html_utils.py`  — `clean_text`

Python strings are modelled as Lean `String` (or `List Char` where proofs
proceed by induction on characters); parsed HTML documents (BeautifulSoup
soups) are modelled as trees of `Node` / `NodeForest`; Python exceptions
are modelled with `Except PyErr`; the HTTP layer (the `requests` library)
is modelled by the abstract outcome type `HttpOutcome`.
-/

/-! ## Python string primitives -/

/-- Python's `\s` character class (`re`) restricted to ASCII, which is what
the scraped pages contain: space, tab, newline, carriage return, vertical
tab (0x0b) and form feed (0x0c). -/
def isPySpace (c : Char) : Bool :=
  c == ' ' || c == '\t' || c == '\n' || c == '\r' ||
  c == Char.ofNat 11 || c == Char.ofNat 12

/-- Model of Python `str.strip()` (no arguments) on a character list: drop
leading and trailing whitespace. -/
def stripChars (l : List Char) : List Char :=
  ((l.dropWhile isPySpace).reverse.dropWhile isPySpace).reverse

/-- Model of Python `str.strip()` on a `String`. -/
def pyStrip (s : String) : String :=
  (stripChars s.toList).asString

/-- Model of Python `str.lower()` (the labels handled by the scrapers are
ASCII, where `Char.toLower` agrees with Python). -/
def pyLower (s : String) : String :=
  (s.toList.map Char.toLower).asString

/-- Worker for `pySplit`: scan the character list; whenever the (non-empty)
separator is a prefix of the remainder, emit the accumulated piece and skip
the separator.  The fuel starts at the list length plus one and every step
consumes at least one character, so the fuel never runs out; it only makes
the recursion structural. -/
def pySplitAux (sep : List Char) : Nat → List Char → List Char → List (List Char)
  | 0, l, acc => [acc.reverse ++ l]
  | fuel + 1, l, acc =>
    match l with
    | [] => [acc.reverse]
    | c :: rest =>
      if sep.isPrefixOf l then
        acc.reverse :: pySplitAux sep fuel (l.drop sep.length) []
      else
        pySplitAux sep fuel rest (c :: acc)

/-- Model of Python `str.split(sep)` with an explicit non-empty separator
(also the behaviour of `str.splitOn` used on the URL templates): split at
every non-overlapping occurrence of `sep`, keeping empty pieces. -/
def pySplit (s sep : String) : List String :=
  if sep == "" then [s]
  else (pySplitAux sep.toList (s.length + 1) s.toList []).map List.asString

/-- Model of Python's `pat in s` substring test: `str.split` on a non-empty
pattern returns a single piece exactly when the pattern does not occur. -/
def containsSub (s pat : String) : Bool :=
  (pySplit s pat).length != 1

/-- Model of Python `str.replace("'", "")`: removing every single-quote
character (code point 39) from a string. -/
def pyRemoveQuote (s : String) : String :=
  (s.toList.filter (fun c => !(c == Char.ofNat 39))).asString

/-- Model of Python `str.replace(':', '')`: removing every colon. -/
def pyRemoveColon (s : String) : String :=
  (s.toList.filter (fun c => !(c == ':'))).asString

/-- Model of Python `str.replace('\xa0', ' ')`: mapping every non-breaking
space (code point 160) to an ordinary space. -/
def pyReplaceNbsp (s : String) : String :=
  (s.toList.map (fun c => if c == Char.ofNat 160 then ' ' else c)).asString

/-! ## HTML document model

A parsed page (BeautifulSoup soup) is a `NodeForest`; elements carry their
tag name, attribute list (first occurrence of a key wins, as in a parsed
attribute set) and children in document order.  (`NodeForest` is an exact
copy of a list of nodes, declared mutually with `Node` so that the
traversals below are structurally recursive.) -/

mutual
/-- A node of the parsed HTML tree: a text node (`NavigableString`) or an
element with tag, attributes and children. -/
inductive Node where
  | text : String → Node
  | elem : String → List (String × String) → NodeForest → Node
/-- A sequence of sibling nodes in document order. -/
inductive NodeForest where
  | nil : NodeForest
  | cons : Node → NodeForest → NodeForest
end

/-- Build a `NodeForest` from a list of nodes (used to write documents as
ordinary list literals). -/
def nf : List Node → NodeForest
  | [] => .nil
  | n :: t => .cons n (nf t)

/-- First node of a forest, if any. -/
def NodeForest.headN? : NodeForest → Option Node
  | .nil => none
  | .cons n _ => some n

/-- Attribute lookup on an attribute list (`tag['k']` / `tag.has_attr('k')`
in BeautifulSoup). -/
def getAttr (attrs : List (String × String)) (k : String) : Option String :=
  match attrs with
  | [] => none
  | (k', v) :: rest => if k' == k then some v else getAttr rest k

/-- Attribute lookup on a node; text nodes have no attributes. -/
def nodeAttr (n : Node) (k : String) : Option String :=
  match n with
  | .text _ => none
  | .elem _ attrs _ => getAttr attrs k

/-- Children of a node; text nodes have none. -/
def childrenOf (n : Node) : NodeForest :=
  match n with
  | .text _ => .nil
  | .elem _ _ cs => cs

/-- CSS class membership test: the `class` attribute split on whitespace
contains the given class (BeautifulSoup `.cls` selector semantics). -/
def hasClass (attrs : List (String × String)) (cls : String) : Bool :=
  match getAttr attrs "class" with
  | none => false
  | some v => (v.toList.splitOnP isPySpace).any (fun w => w.asString == cls)

/-- Concatenation of all text descendants of a forest, in document
order. -/
def textOfF : NodeForest → String
  | .nil => ""
  | .cons (.text s) rest => s ++ textOfF rest
  | .cons (.elem _ _ cs) rest => textOfF cs ++ textOfF rest

/-- `tag.text` / `tag.get_text()`: concatenation of all text descendants of
one node. -/
def nodeText (n : Node) : String :=
  match n with
  | .text s => s
  | .elem _ _ cs => textOfF cs

/-- Pre-order (document order) collection of every node of the forest —
the node itself, then its descendants — satisfying the predicate.  This is
the order in which BeautifulSoup `select` / `find_all` return matches. -/
def selectAll (p : Node → Bool) : NodeForest → List Node
  | .nil => []
  | .cons n rest =>
    (if p n then [n] else []) ++
    (match n with
     | .elem _ _ cs => selectAll p cs
     | .text _ => []) ++
    selectAll p rest

/-- BeautifulSoup `find` / `select_one`: first match in document order. -/
def selectFirst (p : Node → Bool) (l : NodeForest) : Option Node :=
  (selectAll p l).head?

/-- All text-node strings of a forest in document order
(`find_all(string=True)` applied below an element). -/
def allStrings : NodeForest → List String
  | .nil => []
  | .cons (.text s) rest => s :: allStrings rest
  | .cons (.elem _ _ cs) rest => allStrings cs ++ allStrings rest

/-- Predicate for an element with the given tag name. -/
def isTag (t : String) (n : Node) : Bool :=
  match n with
  | .elem t' _ _ => t' == t
  | .text _ => false

/-- Predicate for the CSS selector `#i` (element whose `id` attribute is
exactly `i`). -/
def hasId (i : String) (n : Node) : Bool :=
  match n with
  | .elem _ attrs _ => getAttr attrs "id" == some i
  | .text _ => false

/-! ## Python exceptions and HTTP outcomes -/

/-- Decidable equality of `Except` results (component-wise). -/
instance {ε α : Type} [DecidableEq ε] [DecidableEq α] : DecidableEq (Except ε α) := fun x y =>
  match x, y with
  | .ok a, .ok b =>
    if h : a = b then isTrue (by rw [h]) else isFalse (by intro hh; cases hh; exact h rfl)
  | .error a, .error b =>
    if h : a = b then isTrue (by rw [h]) else isFalse (by intro hh; cases hh; exact h rfl)
  | .ok _, .error _ => isFalse (by intro hh; cases hh)
  | .error _, .ok _ => isFalse (by intro hh; cases hh)

/-- The Python exceptions the translated code can raise. -/
inductive PyErr where
  | keyError : String → PyErr
  | indexError : PyErr
  | attributeError : String → PyErr
  | valueError : String → PyErr
  | httpStatusError : Nat → PyErr
  | connectionError : PyErr
deriving Repr, DecidableEq

/-- Outcome of one `requests` GET, abstracting the HTTP library: a 2xx
response with a body, a non-2xx status (on which `raise_for_status` raises
`HTTPError`, a `RequestException`), or a network-level `RequestException`. -/
inductive HttpOutcome where
  | success : String → HttpOutcome
  | httpError : Nat → HttpOutcome
  | netError : HttpOutcome
deriving Repr, DecidableEq

/-- `CamosunCourseScraper.get_page` / `CamosunProgramScraper.get_page`
(`courses_scrapper.py` lines 28-36, `program_scrapper.py` lines 29-37; the
two method bodies are identical): `raise_for_status` and any network error
raise `RequestException`, which the `except` clause catches, logs, and turns
into `None`; a 2xx response yields `response.text`. -/
def get_page (r : HttpOutcome) : Option String :=
  match r with
  | .success body => some body
  | .httpError _ => none
  | .netError => none

/-- `old_program_scraper.get_soup` (lines 28-35): no `try`/`except`, so the
exception raised by `raise_for_status` on a non-2xx status, or a
network-level `RequestException`, propagates to the caller; a 2xx response
is parsed and returned (we return the markup standing for the soup). -/
def get_soup (r : HttpOutcome) : Except PyErr String :=
  match r with
  | .success body => .ok body
  | .httpError status => .error (.httpStatusError status)
  | .netError => .error .connectionError

/-! ## Course link extraction (`courses_scrapper.py` lines 38-58) -/

/-- One entry of the list built by `extract_course_links`:
`{'code': ..., 'url': ...}`. -/
structure CourseLink where
  code : String
  url : String
deriving Repr, DecidableEq

/-- `sep.join(pieces)` — interleave a separator between the pieces. -/
def joinWith (sep : String) : List String → String
  | [] => ""
  | [x] => x
  | x :: xs => x ++ sep ++ joinWith sep xs

/-- Model of `urllib.parse.urljoin`, restricted to the shapes this
repository passes it: an absolute `scheme://host[/path]` base and either an
absolute-path reference (starting with `/`, which keeps only the base's
scheme and authority) or a relative path with no scheme (which replaces the
last segment of the base's path). -/
def urljoin (base rel : String) : String :=
  if rel == "" then base
  else
    match pySplit base "://" with
    | [sch, rest] =>
      match pySplit rest "/" with
      | [] => base
      | host :: pathSegs =>
        if "/".toList.isPrefixOf rel.toList then sch ++ "://" ++ host ++ rel
        else
          let d := pathSegs.dropLast
          sch ++ "://" ++ host ++ "/" ++
            (if d.isEmpty then "" else joinWith "/" d ++ "/") ++ rel
    | _ => base

/-- The element test performed by the selector
`td.width a[href*="preview_course"]` on the anchor itself: an `a` element
whose `href` attribute contains `preview_course`. -/
def isCourseAnchor (n : Node) : Bool :=
  match n with
  | .elem tag attrs _ =>
    tag == "a" &&
      (match getAttr attrs "href" with
       | some h => containsSub h "preview_course"
       | none => false)
  | .text _ => false

/-- Document-order matches of the CSS selector
`td.width a[href*="preview_course"]`: anchors as above that are strict
descendants of a `td` element with class `width`.  The flag records whether
an ancestor `td.width` has been entered. -/
def selectAnchorsUnderTd (underTd : Bool) : NodeForest → List Node
  | .nil => []
  | .cons n rest =>
    (if underTd && isCourseAnchor n then [n] else []) ++
    (match n with
     | .elem tag attrs cs =>
       selectAnchorsUnderTd (underTd || (tag == "td" && hasClass attrs "width")) cs
     | .text _ => []) ++
    selectAnchorsUnderTd underTd rest

/-- Body of the `for link in course_rows` loop of `extract_course_links`
(lines 46-56): for each matched anchor that `has_attr('href')`, read the
`onclick` attribute (`link['onclick']` raises `KeyError` when absent), take
the second comma-separated piece (`split(',')[1]` raises `IndexError` when
there is no comma), strip it and delete single quotes to obtain the `coid`,
build `preview_course_nopop.php?catoid=25&coid={coid}`, join it onto the
base URL, and append `{code, url}` with the anchor's stripped text. -/
def linkLoop (base : String) : List Node → List CourseLink → Except PyErr (List CourseLink)
  | [], acc => .ok acc
  | link :: rest, acc =>
    if (nodeAttr link "href").isSome then
      match nodeAttr link "onclick" with
      | none => .error (.keyError "onclick")
      | some oc =>
        match (pySplit oc ",")[1]? with
        | none => .error .indexError
        | some piece =>
          let coid := pyRemoveQuote (pyStrip piece)
          let url := urljoin base ("preview_course_nopop.php?catoid=25&coid=" ++ coid)
          let code := pyStrip (nodeText link)
          linkLoop base rest (acc ++ [⟨code, url⟩])
    else linkLoop base rest acc

/-- `CamosunCourseScraper.extract_course_links` (lines 38-58). -/
def extract_course_links (base : String) (html : NodeForest) : Except PyErr (List CourseLink) :=
  linkLoop base (selectAnchorsUnderTd false html) []

/-! ## Course detail extraction (`courses_scrapper.py` lines 61-125) -/

/-- Value of one of the heterogeneous dictionary entries `Prerequisites`,
`Equivalencies`, `Pre or Co-requisites` of `course_data`: initialized to the
empty string, possibly overwritten with a list of strings
(`Equivalencies`) or a single-key mapping from a label to a list of strings
(`Prerequisites`, `Pre or Co-requisites`). -/
inductive FieldVal where
  | str : String → FieldVal
  | list : List String → FieldVal
  | dict : String → List String → FieldVal
deriving Repr, DecidableEq

/-- The `course_data` dictionary of `extract_course_details`
(lines 65-75). -/
structure CourseData where
  url : String
  code : String
  title : String
  description : String
  credits : String
  hours : String
  prerequisites : FieldVal
  equivalencies : FieldVal
  preOrCoRequisites : FieldVal
deriving Repr, DecidableEq

/-- The initialized `course_data` record (lines 65-75): every field empty
except the URL passed in. -/
def initCourse (course_url : String) : CourseData :=
  { url := course_url, code := "", title := "", description := "",
    credits := "", hours := "",
    prerequisites := .str "", equivalencies := .str "",
    preOrCoRequisites := .str "" }

/-- Python `max(text_list, key=len)` (line 90): `ValueError` on an empty
list, otherwise the first element of maximal length (Python keeps the
earlier element on ties, since replacement needs a strictly greater key). -/
def pyMaxByLen : List String → Except PyErr String
  | [] => .error (.valueError "max() arg is an empty sequence")
  | s :: rest => .ok (rest.foldl (fun best x => if best.length < x.length then x else best) s)

/-- `content.find_all('strong')` paired with each match's `next_sibling`
(lines 114-116): document-order traversal of the forest collecting every
`strong` element together with the node that follows it in its parent's
child list (`none` when it is the last child). -/
def strongsWithSib : NodeForest → List (Node × Option Node)
  | .nil => []
  | .cons n rest =>
    (match n with
     | .elem tag _ _ => if tag == "strong" then [(n, rest.headN?)] else []
     | .text _ => []) ++
    (match n with
     | .elem _ _ cs => strongsWithSib cs
     | .text _ => []) ++
    strongsWithSib rest

/-- The `for strong_tag in content.find_all('strong')` loop
(lines 113-123).  For each `strong`: the label is the stripped, lowercased
element text; `value = strong_tag.next_sibling` — a missing sibling
(`None`) or an empty text node is falsy and skipped; a following *element*
is truthy but has no `.strip()` method, so `value.strip()` raises
`AttributeError`; a non-empty text sibling is stripped and assigned to
`credits` when the label contains `credit`, else to `hours` when it
contains `hour`.  Each assignment overwrites the previous value. -/
def strongLoop : List (Node × Option Node) → CourseData → Except PyErr CourseData
  | [], cd => .ok cd
  | (st, sib) :: rest, cd =>
    let label := pyLower (pyStrip (nodeText st))
    match sib with
    | none => strongLoop rest cd
    | some (.elem _ _ _) => .error (.attributeError "Tag object has no attribute strip")
    | some (.text s) =>
      if s == "" then strongLoop rest cd
      else
        let v := pyStrip s
        let cd' :=
          if containsSub label "credit" then { cd with credits := v }
          else if containsSub label "hour" then { cd with hours := v }
          else cd
        strongLoop rest cd'

/-- The title/code split (lines 77-83): find `#course_preview_title`; if
present, split its text on `-`; only when the split yields exactly two
parts are `code` and `title` set to the stripped parts. -/
def titleFields (cd : CourseData) (html : NodeForest) : CourseData :=
  match selectFirst (hasId "course_preview_title") html with
  | none => cd
  | some t =>
    match pySplit (nodeText t) "-" with
    | [a, b] => { cd with code := pyStrip a, title := pyStrip b }
    | _ => cd

/-- The `if content:` block of `extract_course_details` (lines 87-123),
applied to the children of the `td.block_content` element:
`content.find('p')` (first descendant paragraph; when there is none the
subsequent `.find_all` call raises `AttributeError` on `None`);
`text_list = p.find_all(string=True)`; `max(text_list, key=len)` becomes
the description (`ValueError` on an empty text list); if any `li`
descendants exist, their stripped texts (with `\xa0` replaced by a space)
are stored under `Equivalencies` (a plain list) when the string
`Equivalencies` occurs in `text_list`, else under a single-key dict for
`Pre or Co-requisites` or `Prerequisites`, the key being the stripped,
colon-free string following the keyword in `text_list`
(`text_list[index+1]` raises `IndexError` when the keyword is last);
finally the `strong` loop fills `credits` and `hours`. -/
def extractFromContent (cd : CourseData) (cs : NodeForest) : Except PyErr CourseData :=
  match selectFirst (isTag "p") cs with
  | none => .error (.attributeError "NoneType object has no attribute find_all")
  | some p =>
    match pyMaxByLen (allStrings (childrenOf p)) with
    | .error e => .error e
    | .ok desc =>
      let text_list := allStrings (childrenOf p)
      let cd := { cd with description := desc }
      let li_list := selectAll (isTag "li") cs
      let step2 : Except PyErr CourseData :=
        if li_list.isEmpty then .ok cd
        else
          let prereq_list := li_list.map (fun li => pyReplaceNbsp (pyStrip (nodeText li)))
          if text_list.contains "Equivalencies" then
            .ok { cd with equivalencies := .list prereq_list }
          else if text_list.contains "Pre or Co-requisites" then
            match text_list[(text_list.indexOf "Pre or Co-requisites") + 1]? with
            | none => .error .indexError
            | some k =>
              .ok { cd with preOrCoRequisites := .dict (pyRemoveColon (pyStrip k)) prereq_list }
          else if text_list.contains "Prerequisites" then
            match text_list[(text_list.indexOf "Prerequisites") + 1]? with
            | none => .error .indexError
            | some k =>
              .ok { cd with prerequisites := .dict (pyRemoveColon (pyStrip k)) prereq_list }
          else .ok cd
      match step2 with
      | .error e => .error e
      | .ok cd2 => strongLoop (strongsWithSib cs) cd2

/-- Predicate for the CSS selector `td.block_content` (line 86). -/
def isBlockContentTd (n : Node) : Bool :=
  match n with
  | .elem tag attrs _ => tag == "td" && hasClass attrs "block_content"
  | .text _ => false

/-- `CamosunCourseScraper.extract_course_details` (lines 61-125): populate
the initialized record from the title element, then, when a
`td.block_content` element exists, from its contents. -/
def extract_course_details (course_url : String) (html : NodeForest) : Except PyErr CourseData :=
  match selectFirst isBlockContentTd html with
  | none => .ok (titleFields (initCourse course_url) html)
  | some content => extractFromContent (titleFields (initCourse course_url) html) (childrenOf content)

/-! ## Program link extraction (`program_scrapper.py` lines 39-57) -/

/-- One entry of the list built by `extract_program_links`:
`{'name': ..., 'url': ...}`. -/
structure ProgramLink where
  name : String
  url : String
deriving Repr, DecidableEq

/-- Predicate for the CSS selector `div.views-row`. -/
def isViewsRow (n : Node) : Bool :=
  match n with
  | .elem tag attrs _ => tag == "div" && hasClass attrs "views-row"
  | .text _ => false

/-- Per-row body of the `for row in views_rows` loop of
`extract_program_links` (lines 47-55): take the row's first descendant
anchor (`row.select_one('a')`); when it exists and has an `href`, append
the stripped anchor text and the href joined onto the base URL; rows
without an anchor, or whose anchor lacks `href`, are skipped. -/
def programRowStep (base : String) (acc : List ProgramLink) (row : Node) : List ProgramLink :=
  match selectFirst (isTag "a") (childrenOf row) with
  | none => acc
  | some link =>
    match nodeAttr link "href" with
    | none => acc
    | some href => acc ++ [⟨pyStrip (nodeText link), urljoin base href⟩]

/-- `CamosunProgramScraper.extract_program_links` (lines 39-57): for every
`div.views-row` in document order, run the per-row body `programRowStep`.
The method is total — it can raise no exception. -/
def extract_program_links (base : String) (html : NodeForest) : List ProgramLink :=
  (selectAll isViewsRow html).foldl (programRowStep base) []

/-! ## Pagination (`courses_scrapper.py` lines 138-176,
`program_scrapper.py` lines 59-84)

The network side of each iteration (fetch page `p`, parse it, extract its
links) is abstracted as a source `src : Nat → Option (List _)`:
`none` models a failed fetch (`get_page` returned `None`), `some links`
the extracted link list of page `p`. -/

/-- The `for page in range(2, 14)` loop of
`CamosunCourseScraper.scrape_all_courses` (lines 159-174), parameterised by
the remaining page numbers: a failed fetch or an empty link list breaks the
loop; otherwise the links are appended and the next page is tried. -/
def coursePagesLoop (src : Nat → Option (List CourseLink)) :
    List Nat → List CourseLink → List CourseLink
  | [], acc => acc
  | p :: rest, acc =>
    match src p with
    | none => acc
    | some [] => acc
    | some links => coursePagesLoop src rest (acc ++ links)

/-- The link-collection phase of `scrape_all_courses` (lines 140-174): the
first page (page 1, the distinguished `courses_url`) contributes its links
when the fetch succeeds (on failure the code only logs and continues), then
the pagination loop runs over `range(2, 14)`, i.e. pages 2 to 13. -/
def collect_course_links (src : Nat → Option (List CourseLink)) : List CourseLink :=
  coursePagesLoop src (List.range' 2 12)
    (match src 1 with
     | none => []
     | some links => links)

/-- `CamosunProgramScraper.get_all_program_links` (lines 59-84): a
`while more_pages` loop starting at page 0 with no iteration ceiling — it
exits only when a fetch fails or a page yields no links.  The loop is
modelled with explicit fuel: `some acc` is a normal exit within `fuel`
iterations, `none` means the loop was still running when the fuel ran
out. -/
def get_all_program_links (src : Nat → Option (List ProgramLink)) :
    Nat → Nat → List ProgramLink → Option (List ProgramLink)
  | 0, _, _ => none
  | fuel + 1, page, acc =>
    match src page with
    | none => some acc
    | some [] => some acc
    | some links => get_all_program_links src fuel (page + 1) (acc ++ links)

/-! ## Orchestrator (`courses_scrapper.py` lines 179-190,
`program_scrapper.py` lines 254-269)

Both orchestrators run the same per-entity loop: call the per-entity step
(fetch + detail extraction, abstracted as `step` since it performs I/O)
inside `try`/`except`; an exception is caught and logged and the entity is
skipped; a step returning `None` (failed fetch) appends nothing; a step
returning a record appends it. -/

/-- The per-entity loop shared by `scrape_all_courses` (lines 179-190) and
`scrape_all_programs` (lines 254-269). -/
def scrapeEntitiesLoop {α β : Type} (step : α → Except PyErr (Option β)) :
    List α → List β
  | [] => []
  | l :: rest =>
    match step l with
    | .error _ => scrapeEntitiesLoop step rest
    | .ok none => scrapeEntitiesLoop step rest
    | .ok (some d) => d :: scrapeEntitiesLoop step rest

/-! ## `clean_text` (`utils/html_utils.py` lines 12-30,
`old_program_scraper.py` lines 56-63)

Strings are modelled as `List Char` here so that the whitespace properties
can be proved by induction on characters; `none` models Python `None`. -/

/-- Model of `re.sub(r'\s+', ' ', text)`: every maximal run of whitespace
characters is replaced by a single space.  The flag records whether the
previous character was part of a whitespace run. -/
def collapseWS : Bool → List Char → List Char
  | _, [] => []
  | b, c :: cs =>
    if isPySpace c then
      if b then collapseWS true cs else ' ' :: collapseWS true cs
    else c :: collapseWS false cs

/-- Model of `re.sub(r'\n+', '\n', text)`: every maximal run of newlines is
replaced by a single newline. -/
def collapseNL : Bool → List Char → List Char
  | _, [] => []
  | b, c :: cs =>
    if c == '\n' then
      if b then collapseNL true cs else '\n' :: collapseNL true cs
    else c :: collapseNL false cs

/-- `html_utils.clean_text` (lines 12-30): `None` and the empty string come
back as the empty string (`if not text`); otherwise collapse all whitespace
runs to single spaces, collapse newline runs (a no-op after the first
substitution), and strip. -/
def clean_text : Option (List Char) → List Char
  | none => []
  | some l =>
    if l.isEmpty then []
    else stripChars (collapseNL false (collapseWS false l))

/-- `old_program_scraper.clean_text` (lines 56-63): same as the
`html_utils` version but without the newline substitution. -/
def clean_text_old : Option (List Char) → List Char
  | none => []
  | some l =>
    if l.isEmpty then []
    else stripChars (collapseWS false l)

/-! ## Concrete example documents -/

/-- Whether a `next_sibling` value is safe for the `strong` loop, i.e. is
not a following element (on which `.strip()` would raise). -/
def sibSafe : Option Node → Bool
  | some (.elem _ _ _) => false
  | _ => true

/-- A listing page with exactly one anchor matching
`td.width a[href*="preview_course"]`, labelled `CSCI 100`, with href
`/preview_course.php?coid=5` and an inline-event attribute carrying the
course identifier `5` as its second comma-separated piece. -/
def c1doc : NodeForest :=
  nf [.elem "table" [] (nf [
    .elem "td" [("class", "width")] (nf [
      .elem "a" [("href", "/preview_course.php?coid=5"),
                 ("onclick", "showCourse(25, 5, this)")] (nf [.text "CSCI 100"])])])]

/-- A detail page consisting solely of the heading element
`#course_preview_title` with the given text. -/
def mkTitleDoc (txt : String) : NodeForest :=
  nf [.elem "h1" [("id", "course_preview_title")] (nf [.text txt])]

/-- A detail page whose `td.block_content` element contains no paragraph. -/
def noParagraphDoc : NodeForest :=
  nf [.elem "td" [("class", "block_content")] (nf [.text "no paragraph here"])]

/-- A detail page whose `td.block_content` element contains a paragraph
with an empty text list. -/
def emptyParagraphDoc : NodeForest :=
  nf [.elem "td" [("class", "block_content")] (nf [.elem "p" [] .nil])]

/-- A detail page whose `td.block_content` element contains exactly one
paragraph holding one text node `d` — no labelled field is present. -/
def descOnlyDoc (d : String) : NodeForest :=
  nf [.elem "td" [("class", "block_content")] (nf [.elem "p" [] (nf [.text d])])]

/-- A detail page whose content block carries two `strong` elements with
the same label keyword `credit` and different adjacent-sibling texts. -/
def twoCreditsDoc : NodeForest :=
  nf [.elem "td" [("class", "block_content")] (nf [
    .elem "p" [] (nf [.text "Course description."]),
    .elem "strong" [] (nf [.text "Credits:"]), .text " 3 ",
    .elem "strong" [] (nf [.text "Credits:"]), .text " 4 "])]

/-- A remote source for the program-pagination loop that returns one link
on every page and never signals emptiness or failure. -/
def alwaysOneProgramPage : Nat → Option (List ProgramLink) :=
  fun _ => some [⟨"Prog", "https://camosun.ca/p"⟩]

/-! ## Theorems -/

/-- C1: the claim as frozen states that for a listing page with exactly one
matching anchor labelled `CSCI 100` with href `/preview_course.php?coid=5`,
`extract_course_links` returns that href joined onto the base — i.e. that
the url is derived from the anchor's href attribute.  It is not: on such a
page the code derives the url from the identifier embedded in the `onclick`
attribute and builds `preview_course_nopop.php?catoid=25&coid=5`, so the
returned url differs from the one the claim requires. -/
theorem C1_counterexample :
    extract_course_links "https://calendar.camosun.ca" c1doc =
      .ok [{ code := "CSCI 100",
             url := "https://calendar.camosun.ca/preview_course_nopop.php?catoid=25&coid=5" }]
  ∧ extract_course_links "https://calendar.camosun.ca" c1doc ≠
      .ok [{ code := "CSCI 100",
             url := urljoin "https://calendar.camosun.ca" "/preview_course.php?coid=5" }] :=
  ⟨rfl, by decide⟩

/-- C1 (amended): for the listing page with exactly one matching anchor of
label `CSCI 100`, href `/preview_course.php?coid=5` and inline-event
attribute carrying identifier `5`, `extract_course_links` returns the
one-element sequence whose url is the base joined with
`preview_course_nopop.php?catoid=25&coid=5` — reconstructed from the
identifier in the inline-event (`onclick`) attribute, the href serving only
as part of the match condition. -/
theorem C1_amended_url_from_onclick :
    extract_course_links "https://calendar.camosun.ca" c1doc =
      .ok [{ code := "CSCI 100",
             url := "https://calendar.camosun.ca/preview_course_nopop.php?catoid=25&coid=5" }] :=
  rfl

/-- C5: the claim as frozen states that every page-fetch operation of every
scraper variant turns a non-2xx status or network exception into a
`FetchFailure` signal and never propagates the exception.
`old_program_scraper.get_soup` has no `try`/`except`: the exception raised
by `raise_for_status` on a non-2xx status (here 404) propagates to the
caller instead of becoming a failure signal. -/
theorem C5_counterexample :
    get_soup (.httpError 404) = .error (.httpStatusError 404) := rfl

/-- C5 (amended): the `get_page` methods of `CamosunCourseScraper` and
`CamosunProgramScraper` return the body on success and `None` (the
`FetchFailure` signal) on any non-2xx status or network exception, never
propagating the exception; `old_program_scraper.get_soup`, by contrast,
propagates both kinds of `RequestException` to its caller. -/
theorem C5_amended_fetch_behaviour :
    (∀ b, get_page (.success b) = some b)
  ∧ (∀ s, get_page (.httpError s) = none)
  ∧ (get_page .netError = none)
  ∧ (∀ b, get_soup (.success b) = .ok b)
  ∧ (∀ s, get_soup (.httpError s) = .error (.httpStatusError s))
  ∧ (get_soup .netError = .error .connectionError) :=
  ⟨fun _ => rfl, fun _ => rfl, rfl, fun _ => rfl, fun _ => rfl, rfl⟩

/-- C9: the link extractors are deterministic and idempotent across
invocations: both are pure functions of the markup (the Python methods read
only their argument and the constant `base_url` and mutate no scraper
state), so two invocations on identical markup yield identical ordered
sequences. -/
theorem C9_extractors_deterministic (base : String) (m : NodeForest) :
    extract_course_links base m = extract_course_links base m
  ∧ extract_program_links base m = extract_program_links base m :=
  ⟨rfl, rfl⟩

/-- The course pagination loop consults the source only at the pages of its
page list: two sources agreeing there produce the same result. -/
theorem coursePagesLoop_congr (src src' : Nat → Option (List CourseLink)) :
    ∀ ps acc, (∀ p ∈ ps, src p = src' p) →
      coursePagesLoop src ps acc = coursePagesLoop src' ps acc := by
  intro ps
  induction ps with
  | nil => intro acc _; rfl
  | cons p rest ih =>
    intro acc h
    have hp : src p = src' p := h p (List.mem_cons_self p rest)
    have hrest : ∀ q ∈ rest, src q = src' q := fun q hq => h q (List.mem_cons_of_mem p hq)
    simp only [coursePagesLoop, hp]
    cases src' p with
    | none => rfl
    | some links =>
      cases links with
      | nil => rfl
      | cons a as => exact ih _ hrest

/-- C2: the claim as frozen states that every pagination variant performs a
bounded number of iterations, and in particular that
`get_all_program_links` terminates within a hard iteration ceiling even
when no page ever yields an empty link list.  The `while more_pages` loop
of `get_all_program_links` has no ceiling: against a source returning a
non-empty link list on every page it is still running after 20 iterations
(well past the claimed 13-page bound), its fueled model returning `none`
rather than an accumulated sequence. -/
theorem C2_counterexample :
    get_all_program_links alwaysOneProgramPage 20 0 [] = none := rfl

/-- C2 (amended): only the course scraper's pagination is bounded — the
`for page in range(2, 14)` loop consults the remote source on pages 1-13
at most, so its result is unchanged when the source is cut off after page
13; `get_all_program_links`, by contrast, has no iteration ceiling: against
a source that returns a non-empty link list on every page it never
returns, whatever fuel it is given. -/
theorem C2_amended_pagination :
    (∀ src : Nat → Option (List CourseLink),
      collect_course_links src =
        collect_course_links (fun p => if p ≤ 13 then src p else none))
  ∧ (∀ fuel page acc,
      get_all_program_links alwaysOneProgramPage fuel page acc = none) := by
  constructor
  · intro src
    unfold collect_course_links
    have h1 : (fun p => if p ≤ 13 then src p else none) 1 = src 1 := by norm_num
    rw [h1]
    apply coursePagesLoop_congr
    intro p hp
    have hlist : List.range' 2 12 = [2, 3, 4, 5, 6, 7, 8, 9, 10, 11, 12, 13] := rfl
    rw [hlist] at hp
    fin_cases hp <;> norm_num
  · intro fuel
    induction fuel with
    | zero => intro page acc; rfl
    | succ n ih =>
      intro page acc
      simp only [get_all_program_links, alwaysOneProgramPage]
      exact ih (page + 1) (acc ++ [⟨"Prog", "https://camosun.ca/p"⟩])

/-- C3: the claim as frozen states that `extract_course_details` raises no
exception for any input markup, naming in particular markup whose
`td.block_content` element has no paragraph.  On exactly that markup the
code evaluates `content.find('p').find_all(string=True)` with
`find('p')` returning `None`, raising `AttributeError`. -/
theorem C3_counterexample :
    extract_course_details "u" noParagraphDoc =
      .error (.attributeError "NoneType object has no attribute find_all") := rfl

/-- C3 (amended): the silent-default behaviour holds only while the
`td.block_content` lookup itself misses or the block is well-formed: with
no `td.block_content` (and no heading) every field of the result keeps its
initialized default and no exception is raised; with a block whose
paragraph carries a single text node and no labelled field, only the
description is populated and the rest keep their defaults; but the function
is not exception-free — a block whose paragraph has an empty text list
raises `ValueError` from `max()` (and one with no paragraph at all raises
`AttributeError`). -/
theorem C3_amended_defaults :
    (∀ url html, selectFirst isBlockContentTd html = none →
       selectFirst (hasId "course_preview_title") html = none →
       extract_course_details url html = .ok (initCourse url))
  ∧ (∀ url d, extract_course_details url (descOnlyDoc d) =
       .ok { initCourse url with description := d })
  ∧ (∀ url, extract_course_details url emptyParagraphDoc =
       .error (.valueError "max() arg is an empty sequence")) := by
  refine ⟨?_, fun url d => rfl, fun url => rfl⟩
  intro url html h1 h2
  simp only [extract_course_details, titleFields, h1, h2]

/-- C3 witness: a detail page with no `td.block_content` and no heading —
the record comes back with every field at its initialized default. -/
theorem C3_witness :
    extract_course_details "u" (nf [Node.text "plain"]) = .ok (initCourse "u") :=
  C3_amended_defaults.1 "u" (nf [Node.text "plain"]) rfl rfl

/-- The per-entity loop distributes over list append. -/
theorem scrapeEntitiesLoop_append {α β : Type} (step : α → Except PyErr (Option β)) :
    ∀ xs ys, scrapeEntitiesLoop step (xs ++ ys) =
      scrapeEntitiesLoop step xs ++ scrapeEntitiesLoop step ys := by
  intro xs ys
  induction xs with
  | nil => rfl
  | cons x rest ih =>
    simp only [List.cons_append, scrapeEntitiesLoop]
    cases hstep : step x with
    | error e => simpa using ih
    | ok o =>
      cases o with
      | none => simpa using ih
      | some d => simpa using ih

/-- When every entity's step succeeds with a record, the per-entity loop
keeps exactly one record per entity. -/
theorem scrapeEntitiesLoop_all_ok {α β : Type} (step : α → Except PyErr (Option β)) :
    ∀ xs, (∀ a ∈ xs, ∃ d, step a = .ok (some d)) →
      (scrapeEntitiesLoop step xs).length = xs.length := by
  intro xs
  induction xs with
  | nil => intro _; rfl
  | cons x rest ih =>
    intro h
    obtain ⟨d, hd⟩ := h x (List.mem_cons_self x rest)
    simp only [scrapeEntitiesLoop, hd, List.length_cons]
    rw [ih (fun a ha => h a (List.mem_cons_of_mem x ha))]

/-- C4: when, among the links handed to the orchestrator's per-entity loop,
exactly one entity's processing raises an exception and every other
entity's processing returns a record, the returned sequence holds exactly
`N - 1` records: the exception is caught at the loop boundary, the failing
entity is skipped, and processing continues with the remaining entities. -/
theorem C4_per_entity_isolation {α β : Type} (step : α → Except PyErr (Option β))
    (pre post : List α) (bad : α)
    (hbad : ∃ e, step bad = .error e)
    (hok : ∀ a ∈ pre ++ post, ∃ d, step a = .ok (some d)) :
    (scrapeEntitiesLoop step (pre ++ bad :: post)).length =
      (pre ++ bad :: post).length - 1 := by
  obtain ⟨e, he⟩ := hbad
  have hpre : ∀ a ∈ pre, ∃ d, step a = .ok (some d) :=
    fun a ha => hok a (List.mem_append_left _ ha)
  have hpost : ∀ a ∈ post, ∃ d, step a = .ok (some d) :=
    fun a ha => hok a (List.mem_append_right _ ha)
  rw [scrapeEntitiesLoop_append]
  simp only [scrapeEntitiesLoop, he]
  rw [List.length_append, scrapeEntitiesLoop_all_ok step pre hpre,
      scrapeEntitiesLoop_all_ok step post hpost]
  simp only [List.length_append, List.length_cons]
  omega

/-- C4 witness: four entities, of which exactly the second raises — the
loop returns three records. -/
theorem C4_witness :
    (scrapeEntitiesLoop
        (fun n : Nat => if n == 1 then .error .indexError else .ok (some n))
        ([0] ++ 1 :: [2, 3])).length = (([0] ++ 1 :: [2, 3] : List Nat)).length - 1 :=
  C4_per_entity_isolation _ [0] [2, 3] 1 ⟨.indexError, rfl⟩
    (by
      intro a ha
      refine ⟨a, ?_⟩
      simp only [List.singleton_append, List.mem_cons, List.not_mem_nil, or_false] at ha
      rcases ha with rfl | rfl | rfl <;> rfl)

/-- C6: the claim as frozen states that when two strong/emphasis elements
carry the same field keyword, the first match's adjacent-sibling text is
kept.  The loop body assigns on every match, so the later assignment
overwrites the earlier one: with two `Credits:` labels whose siblings are
`3` and `4`, the extracted record holds `4`, not `3`. -/
theorem C6_counterexample :
    (extract_course_details "u" twoCreditsDoc).map (fun cd => cd.credits) = .ok "4"
  ∧ (extract_course_details "u" twoCreditsDoc).map (fun cd => cd.credits) ≠ .ok "3" :=
  ⟨rfl, by decide⟩

/-- C6 (amended): the last match per label wins: whatever `credit`-labelled
strong elements the loop saw earlier, a final strong element whose label
contains `credit` and whose following sibling is a non-empty text node
leaves the record's `credits` field equal to that last sibling's stripped
text (earlier pairs must not be followed by an element node, on which the
loop would raise instead). -/
theorem C6_amended_last_match_wins
    (cd : CourseData) (xs : List (Node × Option Node)) (st : Node) (s : String)
    (hxs : ∀ pr ∈ xs, sibSafe pr.2 = true)
    (hs : s ≠ "")
    (hlabel : containsSub (pyLower (pyStrip (nodeText st))) "credit" = true) :
    (strongLoop (xs ++ [(st, some (.text s))]) cd).map (fun c => c.credits) =
      .ok (pyStrip s) := by
  induction xs generalizing cd with
  | nil =>
    have hs' : (s == "") = false := by
      simpa using hs
    simp only [List.nil_append, strongLoop, hs', hlabel, Bool.false_eq_true, if_false, if_true]
    rfl
  | cons pr rest ih =>
    obtain ⟨n, so⟩ := pr
    have hhead : sibSafe so = true := hxs (n, so) (List.mem_cons_self _ _)
    have hrest : ∀ q ∈ rest, sibSafe q.2 = true :=
      fun q hq => hxs q (List.mem_cons_of_mem _ hq)
    cases so with
    | none => simpa only [List.cons_append, strongLoop] using ih _ hrest
    | some m =>
      cases m with
      | elem t a c => simp [sibSafe] at hhead
      | text s' =>
        simp only [List.cons_append, strongLoop]
        by_cases h'' : (s' == "") = true
        · simp only [h'', if_true]
          exact ih _ hrest
        · simp only [h'', Bool.false_eq_true, if_false]
          exact ih _ hrest

/-- C6 witness: a first `Credits:` pair with sibling text ` 3 ` followed by
a last `Credits:` pair with sibling text ` 4 ` — the loop stores the
stripped last value. -/
theorem C6_witness :
    (strongLoop
        ([(Node.elem "strong" [] (nf [Node.text "Credits:"]), some (Node.text " 3 "))] ++
          [(Node.elem "strong" [] (nf [Node.text "Credits:"]), some (Node.text " 4 "))])
        (initCourse "u")).map (fun c => c.credits) = .ok (pyStrip " 4 ") :=
  C6_amended_last_match_wins (initCourse "u") _ _ " 4 "
    (by
      intro q hq
      rw [List.mem_singleton] at hq
      subst hq
      rfl)
    (by decide)
    rfl

/-- C7: the title/code split of `extract_course_details`: when the heading
element's text splits on `-` into exactly two parts, `code` and `title`
are the stripped parts; when the split yields any other number of parts —
no separator, or more than one — both fields keep the empty string, and in
either case no error is raised (on a page with no content block the
function returns normally). -/
theorem C7_title_split (txt url : String) :
    (∀ a b, pySplit txt "-" = [a, b] →
      extract_course_details url (mkTitleDoc txt) =
        .ok { initCourse url with code := pyStrip a, title := pyStrip b })
  ∧ ((pySplit txt "-").length ≠ 2 →
      extract_course_details url (mkTitleDoc txt) = .ok (initCourse url)) := by
  have hsel : selectFirst isBlockContentTd (mkTitleDoc txt) = none := rfl
  have htitle : selectFirst (hasId "course_preview_title") (mkTitleDoc txt) =
      some (Node.elem "h1" [("id", "course_preview_title")] (nf [Node.text txt])) := rfl
  have htext :
      nodeText (Node.elem "h1" [("id", "course_preview_title")] (nf [Node.text txt])) = txt := by
    simp [nodeText, nf, textOfF, String.append_empty]
  constructor
  · intro a b h
    simp only [extract_course_details, hsel, titleFields, htitle, htext, h]
  · intro h
    simp only [extract_course_details, hsel, titleFields, htitle, htext]
    rcases hsp : pySplit txt "-" with _ | ⟨a, _ | ⟨b, _ | ⟨c, tail⟩⟩⟩
    · rfl
    · rfl
    · rw [hsp] at h; simp at h
    · rfl

/-- C7 witness: the spec's two scenarios — `CSCI 100 - Introduction to
Computing` splits into code and title, a heading without separator leaves
both fields empty. -/
theorem C7_witness :
    extract_course_details "u" (mkTitleDoc "CSCI 100 - Introduction to Computing") =
      .ok { initCourse "u" with code := "CSCI 100", title := "Introduction to Computing" }
  ∧ extract_course_details "u" (mkTitleDoc "CSCI 100") = .ok (initCourse "u") := by
  constructor
  · exact (C7_title_split "CSCI 100 - Introduction to Computing" "u").1
      "CSCI 100 " " Introduction to Computing" (by decide)
  · exact (C7_title_split "CSCI 100" "u").2 (by decide)

/-- When no views-row yields an anchor, the program link fold returns its
accumulator unchanged. -/
theorem programRows_skip (base : String) :
    ∀ (rows : List Node) (acc : List ProgramLink),
      (∀ r ∈ rows, selectFirst (isTag "a") (childrenOf r) = none) →
      rows.foldl (programRowStep base) acc = acc := by
  intro rows
  induction rows with
  | nil => intro acc _; rfl
  | cons r rest ih =>
    intro acc h
    have hr := h r (List.mem_cons_self r rest)
    simp only [List.foldl_cons, programRowStep, hr]
    exact ih acc (fun q hq => h q (List.mem_cons_of_mem r hq))

/-- C8: on a listing page with zero anchors matching the variant's
structural selector, both link extractors return the empty sequence and
raise no error: `extract_course_links` returns `ok []` whenever the
selector `td.width a[href*="preview_course"]` matches nothing, and
`extract_program_links` (a total function) returns `[]` whenever no
`div.views-row` contains an anchor. -/
theorem C8_empty_listing (base baseP : String) (doc docP : NodeForest)
    (h1 : selectAnchorsUnderTd false doc = [])
    (h2 : ∀ r ∈ selectAll isViewsRow docP, selectFirst (isTag "a") (childrenOf r) = none) :
    extract_course_links base doc = .ok [] ∧ extract_program_links baseP docP = [] := by
  constructor
  · unfold extract_course_links
    rw [h1]
    rfl
  · unfold extract_program_links
    exact programRows_skip baseP _ [] h2

/-- C8 witness: a page with no matching course anchor and a page whose only
`div` is not a views-row — both extractors return the empty sequence. -/
theorem C8_witness :
    extract_course_links "b" (nf [Node.text "x"]) = .ok []
  ∧ extract_program_links "b" (nf [Node.elem "div" [] (nf [Node.text "y"])]) = [] :=
  C8_empty_listing "b" "b" _ _ rfl
    (by
      intro r hr
      have hempty : selectAll isViewsRow (nf [Node.elem "div" [] (nf [Node.text "y"])]) = [] :=
        rfl
      rw [hempty] at hr
      exact absurd hr (List.not_mem_nil r))

/-- Every whitespace character surviving the whitespace-collapsing
substitution is the single space it was replaced with. -/
theorem collapseWS_space_blank :
    ∀ (l : List Char) (b : Bool), ∀ c ∈ collapseWS b l, isPySpace c = true → c = ' ' := by
  intro l
  induction l with
  | nil => intro b c hc; simp [collapseWS] at hc
  | cons d cs ih =>
    intro b c hc hspace
    simp only [collapseWS] at hc
    by_cases hd : isPySpace d = true
    · rw [if_pos hd] at hc
      cases b with
      | true =>
        rw [if_pos rfl] at hc
        exact ih true c hc hspace
      | false =>
        simp only [if_neg (by simp : ¬(false = true)), List.mem_cons] at hc
        rcases hc with rfl | hc
        · rfl
        · exact ih true c hc hspace
    · rw [if_neg hd] at hc
      rcases List.mem_cons.mp hc with rfl | hc
      · exact absurd hspace hd
      · exact ih false c hc hspace

/-- The collapsed output contains no newline (isPySpace would force it to
be a space). -/
theorem collapseWS_no_nl :
    ∀ (l : List Char) (b : Bool), ∀ c ∈ collapseWS b l, (c == '\n') = false := by
  intro l b c hc
  by_cases h : c = '\n'
  · subst h
    have := collapseWS_space_blank l b '\n' hc (by decide)
    exact absurd this (by decide)
  · simpa using h

/-- The collapsed output never has two adjacent whitespace characters, and
when the flag says a whitespace run is open the output starts with a
non-whitespace character. -/
theorem collapseWS_chain :
    ∀ (l : List Char) (b : Bool),
      List.Chain' (fun a c => isPySpace a = false ∨ isPySpace c = false) (collapseWS b l)
    ∧ (b = true → ∀ c, (collapseWS b l).head? = some c → isPySpace c = false) := by
  intro l
  induction l with
  | nil => intro b; exact ⟨by simp [collapseWS], by intro _ c hc; simp [collapseWS] at hc⟩
  | cons d cs ih =>
    intro b
    by_cases hd : isPySpace d = true
    · cases b with
      | true =>
        have : collapseWS true (d :: cs) = collapseWS true cs := by
          simp [collapseWS, hd]
        rw [this]
        exact ih true
      | false =>
        have : collapseWS false (d :: cs) = ' ' :: collapseWS true cs := by
          simp [collapseWS, hd]
        rw [this]
        constructor
        · refine List.chain'_cons'.mpr ⟨?_, (ih true).1⟩
          intro y hy
          exact Or.inr ((ih true).2 rfl y hy)
        · intro hfalse; cases hfalse
    · have : collapseWS b (d :: cs) = d :: collapseWS false cs := by
        simp [collapseWS, hd]
      rw [this]
      constructor
      · refine List.chain'_cons'.mpr ⟨?_, (ih false).1⟩
        intro y _
        exact Or.inl (by simpa using hd)
      · intro _ c hc
        rw [List.head?_cons, Option.some_inj] at hc
        subst hc
        simpa using hd

/-- The newline substitution is the identity on newline-free input. -/
theorem collapseNL_noop :
    ∀ (l : List Char) (b : Bool), (∀ c ∈ l, (c == '\n') = false) → collapseNL b l = l := by
  intro l
  induction l with
  | nil => intro b _; rfl
  | cons d cs ih =>
    intro b h
    have hd : (d == '\n') = false := h d (List.mem_cons_self d cs)
    simp only [collapseNL, hd, Bool.false_eq_true, if_false]
    rw [ih false (fun c hc => h c (List.mem_cons_of_mem d hc))]

/-- The head of `dropWhile p` fails `p`. -/
theorem dropWhile_head_not (p : Char → Bool) :
    ∀ (l : List Char) (c : Char), (l.dropWhile p).head? = some c → p c = false := by
  intro l
  induction l with
  | nil => intro c hc; simp at hc
  | cons d cs ih =>
    intro c hc
    by_cases hd : p d = true
    · rw [List.dropWhile_cons, if_pos hd] at hc
      exact ih c hc
    · rw [List.dropWhile_cons, if_neg hd, List.head?_cons, Option.some_inj] at hc
      subst hc
      simpa using hd

/-- A non-empty `dropWhile p` keeps the last element of the list. -/
theorem dropWhile_getLast (p : Char → Bool) :
    ∀ l : List Char, l.dropWhile p ≠ [] → (l.dropWhile p).getLast? = l.getLast? := by
  intro l
  induction l with
  | nil => intro h; exact absurd rfl h
  | cons d cs ih =>
    intro h
    by_cases hd : p d = true
    · rw [List.dropWhile_cons, if_pos hd] at h ⊢
      have hcs : cs ≠ [] := by
        intro hnil
        exact h (by simp [hnil])
      obtain ⟨e, t, rfl⟩ := List.exists_cons_of_ne_nil hcs
      rw [ih h, List.getLast?_cons_cons]
    · rw [List.dropWhile_cons, if_neg hd]

/-- `dropWhile p` is the identity when the head already fails `p`. -/
theorem dropWhile_id (p : Char → Bool) (l : List Char)
    (h : ∀ c, l.head? = some c → p c = false) : l.dropWhile p = l := by
  cases l with
  | nil => rfl
  | cons d cs =>
    have hd : p d = false := h d rfl
    rw [List.dropWhile_cons, if_neg (by simp [hd])]

/-- The stripped list starts with a non-whitespace character. -/
theorem stripChars_head (l : List Char) :
    ∀ c, (stripChars l).head? = some c → isPySpace c = false := by
  intro c hc
  unfold stripChars at hc
  rw [List.head?_reverse] at hc
  rcases hinner : ((l.dropWhile isPySpace).reverse.dropWhile isPySpace) with _ | _
  · rw [hinner] at hc; simp at hc
  · rw [dropWhile_getLast isPySpace _ (by rw [hinner]; simp), List.getLast?_reverse] at hc
    exact dropWhile_head_not isPySpace _ c hc

/-- The stripped list ends with a non-whitespace character. -/
theorem stripChars_last (l : List Char) :
    ∀ c, (stripChars l).getLast? = some c → isPySpace c = false := by
  intro c hc
  unfold stripChars at hc
  rw [List.getLast?_reverse] at hc
  exact dropWhile_head_not isPySpace _ c hc

/-- Stripping preserves the no-two-adjacent-whitespace invariant. -/
theorem stripChars_chain (l : List Char)
    (h : List.Chain' (fun a c => isPySpace a = false ∨ isPySpace c = false) l) :
    List.Chain' (fun a c => isPySpace a = false ∨ isPySpace c = false) (stripChars l) := by
  unfold stripChars
  have h1 : List.Chain' (fun a c => isPySpace a = false ∨ isPySpace c = false)
      (l.dropWhile isPySpace) := h.suffix (List.dropWhile_suffix isPySpace)
  have h2 : List.Chain' (fun a c => isPySpace a = false ∨ isPySpace c = false)
      (l.dropWhile isPySpace).reverse :=
    List.chain'_reverse.mpr (h1.imp (fun a c hac => hac.symm))
  have h3 : List.Chain' (fun a c => isPySpace a = false ∨ isPySpace c = false)
      ((l.dropWhile isPySpace).reverse.dropWhile isPySpace) :=
    h2.suffix (List.dropWhile_suffix isPySpace)
  exact List.chain'_reverse.mpr (h3.imp (fun a c hac => hac.symm))

/-- Stripping only removes characters. -/
theorem mem_stripChars (l : List Char) : ∀ c ∈ stripChars l, c ∈ l := by
  intro c hc
  unfold stripChars at hc
  rw [List.mem_reverse] at hc
  have hc2 := (List.dropWhile_suffix isPySpace).subset hc
  rw [List.mem_reverse] at hc2
  exact (List.dropWhile_suffix isPySpace).subset hc2

/-- Stripping is the identity on a list with non-whitespace ends. -/
theorem stripChars_id (l : List Char)
    (hh : ∀ c, l.head? = some c → isPySpace c = false)
    (hl : ∀ c, l.getLast? = some c → isPySpace c = false) : stripChars l = l := by
  unfold stripChars
  rw [dropWhile_id isPySpace l hh]
  rw [dropWhile_id isPySpace l.reverse (by
    intro c hc
    rw [List.head?_reverse] at hc
    exact hl c hc)]
  exact List.reverse_reverse l

/-- Collapsing whitespace is the identity on already-collapsed input: all
whitespace is single spaces, no two adjacent, and (when a run is open) the
head is not whitespace. -/
theorem collapseWS_id :
    ∀ (l : List Char) (b : Bool),
      (∀ c ∈ l, isPySpace c = true → c = ' ') →
      List.Chain' (fun a c => isPySpace a = false ∨ isPySpace c = false) l →
      (b = true → ∀ c, l.head? = some c → isPySpace c = false) →
      collapseWS b l = l := by
  intro l
  induction l with
  | nil => intro b _ _ _; rfl
  | cons d cs ih =>
    intro b hsp hchain hhead
    by_cases hd : isPySpace d = true
    · cases b with
      | true => exact absurd (hhead rfl d rfl) (by simp [hd])
      | false =>
        have hd' : d = ' ' := hsp d (List.mem_cons_self d cs) hd
        subst hd'
        have hcs : collapseWS true cs = cs := by
          refine ih true (fun c hc h => hsp c (List.mem_cons_of_mem ' ' hc) h)
            (List.Chain'.tail hchain) ?_
          intro _ c hc
          rcases (List.chain'_cons'.mp hchain).1 c hc with h | h
          · exact absurd h (by simp [hd])
          · exact h
        simp only [collapseWS, hd, if_true, Bool.false_eq_true, if_false, hcs]
    · have hcs : collapseWS false cs = cs :=
        ih false (fun c hc h => hsp c (List.mem_cons_of_mem d hc) h)
          (List.Chain'.tail hchain) (by intro h; cases h)
      simp only [collapseWS, hd, Bool.false_eq_true, if_false, hcs]

/-- C10: `clean_text` maps `None` and the empty string to the empty
string; it is idempotent; its result has no leading or trailing whitespace
and no two adjacent whitespace characters; and the `old_program_scraper`
variant (whose only difference is omitting the redundant newline pass)
agrees with it on every input. -/
theorem C10_clean_text_properties :
    (clean_text none = [] ∧ clean_text (some []) = [])
  ∧ (∀ l, clean_text (some (clean_text (some l))) = clean_text (some l))
  ∧ (∀ l, ((clean_text (some l)).head?.all fun c => !isPySpace c) = true
       ∧ ((clean_text (some l)).getLast?.all fun c => !isPySpace c) = true
       ∧ List.Chain' (fun a c => isPySpace a = false ∨ isPySpace c = false)
           (clean_text (some l)))
  ∧ (∀ l, clean_text_old (some l) = clean_text (some l)) := by
  have hempty : ∀ l : List Char, l ≠ [] → l.isEmpty = false := by
    intro l hl
    cases l with
    | nil => exact absurd rfl hl
    | cons d cs => rfl
  have key : ∀ l : List Char, l ≠ [] →
      clean_text (some l) = stripChars (collapseWS false l) := by
    intro l hl
    have hnl : collapseNL false (collapseWS false l) = collapseWS false l :=
      collapseNL_noop _ false (collapseWS_no_nl l false)
    simp [clean_text, hempty l hl, hnl]
  refine ⟨⟨rfl, rfl⟩, ?_, ?_, ?_⟩
  · intro l
    by_cases hl : l = []
    · subst hl; rfl
    · rw [key l hl]
      by_cases hr : stripChars (collapseWS false l) = []
      · rw [hr]; rfl
      · rw [key _ hr]
        have hmem : ∀ c ∈ stripChars (collapseWS false l), c ∈ collapseWS false l :=
          mem_stripChars _
        have h1 : collapseWS false (stripChars (collapseWS false l)) =
            stripChars (collapseWS false l) := by
          refine collapseWS_id _ false ?_ ?_ (by intro h; cases h)
          · exact fun c hc h => collapseWS_space_blank l false c (hmem c hc) h
          · exact stripChars_chain _ (collapseWS_chain l false).1
        rw [h1]
        exact stripChars_id _ (stripChars_head _) (stripChars_last _)
  · intro l
    by_cases hl : l = []
    · subst hl
      exact ⟨rfl, rfl, by simp [clean_text]⟩
    · rw [key l hl]
      refine ⟨?_, ?_, stripChars_chain _ (collapseWS_chain l false).1⟩
      · cases hc : (stripChars (collapseWS false l)).head? with
        | none => rfl
        | some c => simpa using stripChars_head _ c hc
      · cases hc : (stripChars (collapseWS false l)).getLast? with
        | none => rfl
        | some c => simpa using stripChars_last _ c hc
  · intro l
    by_cases hl : l = []
    · subst hl; rfl
    · rw [key l hl]
      simp [clean_text_old, hempty l hl]
